import Mathlib

/-!
# Verification of the statement-text parser (`src/server/r2.ts`)

A shallow embedding of the heuristic bank-statement text parser.  Every
definition below mirrors one function, regular expression, or constant of
the TypeScript source (names are kept).  Conventions of the embedding:

* Strings are handled as `List Char` internally (JavaScript strings are
  sequences of UTF-16 units; all inputs of interest are plain text, where
  the two views agree), with `String` at the API boundary.
* JavaScript numbers are modelled as exact rationals (`ℚ`).  Every number
  the parser manipulates is obtained from short decimal literals and the
  four basic operations, where IEEE doubles and rationals agree for all
  realistic statement data.
* The regular expressions of the source are specialised by hand: each one
  is an anchored or scanning pattern over disjoint character classes, so
  its backtracking behaviour collapses to deterministic longest-run
  matching, which is what the matching functions below implement.
* `new Date().getUTCFullYear()` (read once per `parseDate` call) is made
  an explicit parameter `currentYear`; `Date.UTC` round-trip validation of
  calendar dates is modelled arithmetically (for `0 ≤ year < 100` the
  JavaScript `Date.UTC` reinterprets the year as `1900 + year`, so the
  round-trip check fails and the code yields `null`).
-/

namespace Statement2Csv

/-! ## Character classes (JavaScript regular-expression classes) -/

/-- JavaScript `\s`: whitespace (ECMA-262 WhiteSpace and LineTerminator):
space, tab, LF, VT, FF, CR, NBSP, Ogham space, U+2000-U+200A, LS, PS,
NNBSP, MMSP, ideographic space, and the BOM. -/
def isWs (c : Char) : Bool :=
  let n := c.toNat
  n = 0x20 || n = 0x09 || n = 0x0a || n = 0x0b || n = 0x0c || n = 0x0d ||
  n = 0xa0 || n = 0x1680 || (0x2000 <= n && n <= 0x200a) ||
  n = 0x2028 || n = 0x2029 || n = 0x202f || n = 0x205f ||
  n = 0x3000 || n = 0xfeff

/-- JavaScript `\d`: the ASCII digits. -/
def isDigit (c : Char) : Bool := c.isDigit

/-- JavaScript `[A-Za-z]`. -/
def isAlpha (c : Char) : Bool := c.isAlpha

/-- JavaScript `\w` (word character), used by the `\b` boundary assertion. -/
def isWordChar (c : Char) : Bool := c.isAlpha || c.isDigit || c = '_'

/-- The date separator class `[/.-]`. -/
def isSep (c : Char) : Bool := c = '/' || c = '.' || c = '-'

/-! ## Line normalisation: `line.replace(/\s+/g, " ").trim()` -/

/-- `replace(/\s+/g, " ")`: collapse every whitespace run to one space.
The flag records whether the previous character was part of a run already
replaced (the JavaScript replacement scans left to right). -/
def collapseWs : Bool → List Char → List Char
  | _, [] => []
  | prevWs, c :: cs =>
    if isWs c then
      if prevWs then collapseWs true cs else ' ' :: collapseWs true cs
    else c :: collapseWs false cs

/-- Left part of `String.prototype.trim`. -/
def trimLeftChars (l : List Char) : List Char := l.dropWhile isWs

/-- Right part of `String.prototype.trim` (removes the trailing
whitespace run). -/
def trimRightChars : List Char → List Char
  | [] => []
  | c :: cs =>
    match trimRightChars cs with
    | [] => if isWs c then [] else [c]
    | r => c :: r

/-- `String.prototype.trim`. -/
def trimChars (l : List Char) : List Char := trimRightChars (trimLeftChars l)

/-- `normalizeLine` of the source: `line.replace(/\s+/g, " ").trim()`. -/
def normalizeChars (l : List Char) : List Char := trimChars (collapseWs false l)

/-- `text.split(/\r?\n/)`: break at `\n` and at `\r\n`; a carriage return
not followed by a newline is ordinary content. -/
def splitLines : List Char → List (List Char)
  | [] => [[]]
  | '\r' :: '\n' :: rest => [] :: splitLines rest
  | '\n' :: rest => [] :: splitLines rest
  | c :: rest =>
    match splitLines rest with
    | [] => [[c]]
    | line :: more => (c :: line) :: more

/-! ## `DATE_AT_START`

`/^(\d{4}[/.-]\d{1,2}[/.-]\d{1,2}|\d{1,2}[/.-]\d{1,2}[/.-]\d{2,4}|\d{1,2}\s+[A-Za-z]{3,9}(?:\s+\d{2,4})?|[A-Za-z]{3,9}\s+\d{1,2}(?:,?\s+\d{2,4})?)/`

Each alternative is tried in order at position 0; inside an alternative the
quantified classes (digits, separators, whitespace, letters) are pairwise
disjoint, so greedy matching needs no backtracking: a bounded quantifier
consumes its whole run (capped by the upper bound) and fails if the run
oversteps a bound that is followed by a different class. -/

/-- First alternative: `\d{4}[/.-]\d{1,2}[/.-]\d{1,2}`. -/
def matchAltA (l : List Char) : Option (List Char) :=
  match l with
  | a :: b :: c :: d :: s1 :: rest =>
    if isDigit a && isDigit b && isDigit c && isDigit d && isSep s1 then
      let r1 := rest.takeWhile isDigit
      if 1 ≤ r1.length && r1.length ≤ 2 then
        match rest.dropWhile isDigit with
        | s2 :: rest2 =>
          if isSep s2 then
            let r2 := rest2.takeWhile isDigit
            if 1 ≤ r2.length then
              some (a :: b :: c :: d :: s1 :: (r1 ++ s2 :: r2.take 2))
            else none
          else none
        | [] => none
      else none
    else none
  | _ => none

/-- Second alternative: `\d{1,2}[/.-]\d{1,2}[/.-]\d{2,4}`. -/
def matchAltB (l : List Char) : Option (List Char) :=
  let r1 := l.takeWhile isDigit
  if 1 ≤ r1.length && r1.length ≤ 2 then
    match l.dropWhile isDigit with
    | s1 :: rest1 =>
      if isSep s1 then
        let r2 := rest1.takeWhile isDigit
        if 1 ≤ r2.length && r2.length ≤ 2 then
          match rest1.dropWhile isDigit with
          | s2 :: rest2 =>
            if isSep s2 then
              let r3 := rest2.takeWhile isDigit
              if 2 ≤ r3.length then
                some (r1 ++ s1 :: r2 ++ s2 :: r3.take 4)
              else none
            else none
          | [] => none
        else none
      else none
    | [] => none
  else none

/-- The optional year group `(?:\s+\d{2,4})?` of the textual alternatives:
the consumed characters, or `[]` when the group matches empty. -/
def optYearGroup (l : List Char) : List Char :=
  let w := l.takeWhile isWs
  if w.length = 0 then []
  else
    let ds := (l.dropWhile isWs).takeWhile isDigit
    if 2 ≤ ds.length then w ++ ds.take 4 else []

/-- Third alternative: `\d{1,2}\s+[A-Za-z]{3,9}(?:\s+\d{2,4})?`. -/
def matchAltC (l : List Char) : Option (List Char) :=
  let r1 := l.takeWhile isDigit
  if 1 ≤ r1.length && r1.length ≤ 2 then
    let rest1 := l.dropWhile isDigit
    let w1 := rest1.takeWhile isWs
    if 1 ≤ w1.length then
      let rest2 := rest1.dropWhile isWs
      let ls := rest2.takeWhile isAlpha
      if 3 ≤ ls.length then
        let after := ls.drop 9 ++ rest2.dropWhile isAlpha
        some (r1 ++ w1 ++ ls.take 9 ++ optYearGroup after)
      else none
    else none
  else none

/-- Fourth alternative: `[A-Za-z]{3,9}\s+\d{1,2}(?:,?\s+\d{2,4})?`. -/
def matchAltD (l : List Char) : Option (List Char) :=
  let ls := l.takeWhile isAlpha
  if 3 ≤ ls.length && ls.length ≤ 9 then
    let rest1 := l.dropWhile isAlpha
    let w1 := rest1.takeWhile isWs
    if 1 ≤ w1.length then
      let rest2 := rest1.dropWhile isWs
      let ds := rest2.takeWhile isDigit
      if 1 ≤ ds.length then
        let after := ds.drop 2 ++ rest2.dropWhile isDigit
        let opt :=
          match after with
          | ',' :: a2 =>
            let g := optYearGroup a2
            if g.length = 0 then optYearGroup after else ',' :: g
          | _ => optYearGroup after
        some (ls ++ w1 ++ ds.take 2 ++ opt)
      else none
    else none
  else none

/-- `DATE_AT_START` anchored match: the text of capture group 1 (the whole
match) or `none`. -/
def matchDateAtStart (l : List Char) : Option (List Char) :=
  (matchAltA l).orElse fun _ =>
    (matchAltB l).orElse fun _ =>
      (matchAltC l).orElse fun _ => matchAltD l

/-! ## `HEADER_LINE` and `METADATA_LINE` -/

/-- Case-insensitive literal match: if (lower-cased) `l` starts with the
(lower-case) word `w`, return the rest of `l`. -/
def ciPrefixEats : List Char → List Char → Option (List Char)
  | [], l => some l
  | _, [] => none
  | a :: ws, c :: cs => if c.toLower = a then ciPrefixEats ws cs else none

/-- The keywords of `HEADER_LINE`. -/
def headerWords : List (List Char) :=
  [String.data "date", String.data "description", String.data "amount",
   String.data "balance", String.data "debit", String.data "credit"]

/-- One word matched at the current position with a trailing `\b`. -/
def wordAtHere (w : List Char) (l : List Char) : Bool :=
  match ciPrefixEats w l with
  | some [] => true
  | some (c :: _) => !isWordChar c
  | none => false

/-- The position before `prev` satisfies the `\b` assertion for a match
that starts with a word character. -/
def boundaryOk (prev : Option Char) : Bool :=
  match prev with
  | none => true
  | some p => !isWordChar p

/-- Scan every position for `\b` followed by a `test`-match; `prev` is the
character before the current position. -/
def boundScan (test : List Char → Bool) : Option Char → List Char → Bool
  | _, [] => false
  | prev, c :: cs => (boundaryOk prev && test (c :: cs)) || boundScan test (some c) cs

/-- `HEADER_LINE.test(line)`:
`/\b(date|description|amount|balance|debit|credit)\b/i`. -/
def headerTest (l : List Char) : Bool :=
  boundScan (fun r => headerWords.any fun w => wordAtHere w r) none l

/-- A case-insensitive literal prefix followed by one `\s`. -/
def ciPrefixThenWs (w : List Char) (l : List Char) : Bool :=
  match ciPrefixEats w l with
  | some (c :: _) => isWs c
  | _ => false

/-- `historyhttps?:` at the current position (case-insensitively). -/
def historyUrlHere (l : List Char) : Bool :=
  match ciPrefixEats (String.data "historyhttp") l with
  | some (':' :: _) => true
  | some (c :: ':' :: _) => c.toLower = 's'
  | _ => false

/-- `account\s+history` at the current position. -/
def accountHistoryHere (l : List Char) : Bool :=
  match ciPrefixEats (String.data "account") l with
  | some rest =>
    1 ≤ (rest.takeWhile isWs).length &&
      (ciPrefixEats (String.data "history") (rest.dropWhile isWs)).isSome
  | none => false

/-- `uncleared\s+funds\b` at the current position. -/
def unclearedFundsHere (l : List Char) : Bool :=
  match ciPrefixEats (String.data "uncleared") l with
  | some rest =>
    1 ≤ (rest.takeWhile isWs).length &&
      (match ciPrefixEats (String.data "funds") (rest.dropWhile isWs) with
       | some [] => true
       | some (c :: _) => !isWordChar c
       | none => false)
  | none => false

/-- `\d+\s+of\s+\d+\b` at the current position. -/
def nOfMHere (l : List Char) : Bool :=
  let d1 := l.takeWhile isDigit
  if 1 ≤ d1.length then
    let rest1 := l.dropWhile isDigit
    if 1 ≤ (rest1.takeWhile isWs).length then
      match ciPrefixEats (String.data "of") (rest1.dropWhile isWs) with
      | some rest2 =>
        if 1 ≤ (rest2.takeWhile isWs).length then
          let d2 := (rest2.dropWhile isWs).takeWhile isDigit
          if 1 ≤ d2.length then
            match (rest2.dropWhile isWs).dropWhile isDigit with
            | [] => true
            | c :: _ => !isWordChar c
          else false
        else false
      | none => false
    else false
  else false

/-- `METADATA_LINE.test(line)`:
`/^(date:\s|transaction:\s|showing:\s|order:\s|historyhttps?:|account\s+history|uncleared\s+funds\b|\d+\s+of\s+\d+\b)/i`. -/
def metadataTest (l : List Char) : Bool :=
  ciPrefixThenWs (String.data "date:") l ||
  ciPrefixThenWs (String.data "transaction:") l ||
  ciPrefixThenWs (String.data "showing:") l ||
  ciPrefixThenWs (String.data "order:") l ||
  historyUrlHere l ||
  accountHistoryHere l ||
  unclearedFundsHere l ||
  nOfMHere l

/-! ## `AMOUNT_TOKEN` and `HAS_AMOUNT_TOKEN`

`/(?:\(\$?\d[\d,]*\.\d{2}\)|-?\$?\d[\d,]*\.\d{2})(?:\s?(?:CR|DR))?/gi` -/

/-- Consume one optional literal character (`c?` for a character outside
the classes that follow it). -/
def eatOpt (c : Char) : List Char → List Char × List Char
  | [] => ([], [])
  | x :: xs => if x = c then ([x], xs) else ([], x :: xs)

/-- A digit-or-comma character, the class `[\d,]`. -/
def isDigitComma (c : Char) : Bool := isDigit c || c = ','

/-- The numeric body `\d[\d,]*\.\d{2}` starting at `l`. -/
def matchAmountBody (l : List Char) : Option (List Char) :=
  match l with
  | x :: xs =>
    if isDigit x then
      let run := xs.takeWhile isDigitComma
      match xs.dropWhile isDigitComma with
      | '.' :: a :: b :: _ =>
        if isDigit a && isDigit b then some (x :: run ++ ['.', a, b]) else none
      | _ => none
    else none
  | [] => none

/-- The two core alternatives `\(\$?\d[\d,]*\.\d{2}\)` and
`-?\$?\d[\d,]*\.\d{2}` at the current position. -/
def matchAmountCore (l : List Char) : Option (List Char) :=
  (match l with
   | '(' :: r1 =>
     let (dol, r2) := eatOpt '$' r1
     match matchAmountBody r2 with
     | some body =>
       match r2.drop body.length with
       | ')' :: _ => some ('(' :: dol ++ body ++ [')'])
       | _ => none
     | none => none
   | _ => none).orElse fun _ =>
    let (minus, r1) := eatOpt '-' l
    let (dol, r2) := eatOpt '$' r1
    (matchAmountBody r2).map fun body => minus ++ dol ++ body

/-- `CR` or `DR`, case-insensitively. -/
def isCRDR (a b : Char) : Bool :=
  (a.toLower = 'c' || a.toLower = 'd') && b.toLower = 'r'

/-- The optional suffix `(?:\s?(?:CR|DR))?` (flag `i`): the consumed
characters. -/
def matchAmountSuffix (l : List Char) : List Char :=
  match l with
  | c :: d :: e :: _ =>
    if isWs c && isCRDR d e then [c, d, e]
    else if isCRDR c d then [c, d] else []
  | c :: d :: _ => if isCRDR c d then [c, d] else []
  | _ => []

/-- One `AMOUNT_TOKEN` match attempt at the current position. -/
def matchAmountAt (l : List Char) : Option (List Char) :=
  (matchAmountCore l).map fun core => core ++ matchAmountSuffix (l.drop core.length)

/-- `remainder.matchAll(AMOUNT_TOKEN)`: all non-overlapping matches, found
left to right, each with its index.  The first argument is structural
fuel: every step consumes at least one character (a token always contains
a digit), so fuel equal to the length of the scanned text is enough, and
running out of fuel and running out of text coincide. -/
def amountScan : Nat → Nat → List Char → List (Nat × List Char)
  | 0, _, _ => []
  | _ + 1, _, [] => []
  | fuel + 1, i, c :: cs =>
    match matchAmountAt (c :: cs) with
    | some tok => (i, tok) :: amountScan fuel (i + tok.length) (cs.drop (tok.length - 1))
    | none => amountScan fuel (i + 1) cs

/-- All amount tokens with indices. -/
def amountMatches (l : List Char) : List (Nat × List Char) := amountScan l.length 0 l

/-- `HAS_AMOUNT_TOKEN.test(line)`: a match at some position. -/
def hasAmountToken : List Char → Bool
  | [] => false
  | c :: cs => (matchAmountAt (c :: cs)).isSome || hasAmountToken cs

/-! ## `parseDate` -/

/-- `Number` applied to a capture of decimal digits. -/
def digitsToNat (l : List Char) : Nat :=
  l.foldl (fun n c => n * 10 + (c.toNat - '0'.toNat)) 0

/-- `^(\d{4})[/.-](\d{1,2})[/.-](\d{1,2})$` as the numeric captures.
Anchored on both sides, so every digit run must fall exactly inside its
quantifier bounds. -/
def matchFull1 (l : List Char) : Option (Nat × Nat × Nat) :=
  let r1 := l.takeWhile isDigit
  if r1.length = 4 then
    match l.dropWhile isDigit with
    | s1 :: rest1 =>
      if isSep s1 then
        let r2 := rest1.takeWhile isDigit
        if 1 ≤ r2.length && r2.length ≤ 2 then
          match rest1.dropWhile isDigit with
          | s2 :: rest2 =>
            if isSep s2 then
              let r3 := rest2.takeWhile isDigit
              if 1 ≤ r3.length && r3.length ≤ 2 && rest2.dropWhile isDigit = [] then
                some (digitsToNat r1, digitsToNat r2, digitsToNat r3)
              else none
            else none
          | [] => none
        else none
      else none
    | [] => none
  else none

/-- `^(\d{1,2})[/.-](\d{1,2})[/.-](\d{2,4})$` as the numeric captures. -/
def matchFull2 (l : List Char) : Option (Nat × Nat × Nat) :=
  let r1 := l.takeWhile isDigit
  if 1 ≤ r1.length && r1.length ≤ 2 then
    match l.dropWhile isDigit with
    | s1 :: rest1 =>
      if isSep s1 then
        let r2 := rest1.takeWhile isDigit
        if 1 ≤ r2.length && r2.length ≤ 2 then
          match rest1.dropWhile isDigit with
          | s2 :: rest2 =>
            if isSep s2 then
              let r3 := rest2.takeWhile isDigit
              if 2 ≤ r3.length && r3.length ≤ 4 && rest2.dropWhile isDigit = [] then
                some (digitsToNat r1, digitsToNat r2, digitsToNat r3)
              else none
            else none
          | [] => none
        else none
      else none
    | [] => none
  else none

/-- `^(\d{1,2})\s+([A-Za-z]{3,9})\s+(\d{2,4})$`. -/
def matchFull3 (l : List Char) : Option (Nat × List Char × Nat) :=
  let r1 := l.takeWhile isDigit
  if 1 ≤ r1.length && r1.length ≤ 2 then
    let rest1 := l.dropWhile isDigit
    if 1 ≤ (rest1.takeWhile isWs).length then
      let rest2 := rest1.dropWhile isWs
      let ls := rest2.takeWhile isAlpha
      if 3 ≤ ls.length && ls.length ≤ 9 then
        let rest3 := rest2.dropWhile isAlpha
        if 1 ≤ (rest3.takeWhile isWs).length then
          let rest4 := rest3.dropWhile isWs
          let r3 := rest4.takeWhile isDigit
          if 2 ≤ r3.length && r3.length ≤ 4 && rest4.dropWhile isDigit = [] then
            some (digitsToNat r1, ls, digitsToNat r3)
          else none
        else none
      else none
    else none
  else none

/-- `^(\d{1,2})\s+([A-Za-z]{3,9})$`. -/
def matchFull4 (l : List Char) : Option (Nat × List Char) :=
  let r1 := l.takeWhile isDigit
  if 1 ≤ r1.length && r1.length ≤ 2 then
    let rest1 := l.dropWhile isDigit
    if 1 ≤ (rest1.takeWhile isWs).length then
      let rest2 := rest1.dropWhile isWs
      let ls := rest2.takeWhile isAlpha
      if 3 ≤ ls.length && ls.length ≤ 9 && rest2.dropWhile isAlpha = [] then
        some (digitsToNat r1, ls)
      else none
    else none
  else none

/-- The tail `,?\s+(\d{2,4})$` of the optional year group of the fifth
date pattern (when the group is not skipped). -/
def optYearTail (l : List Char) : Option Nat :=
  let go : List Char → Option Nat := fun x =>
    if 1 ≤ (x.takeWhile isWs).length then
      let ds := (x.dropWhile isWs).takeWhile isDigit
      if 2 ≤ ds.length && ds.length ≤ 4 && (x.dropWhile isWs).dropWhile isDigit = [] then
        some (digitsToNat ds)
      else none
    else none
  match l with
  | ',' :: l2 => go l2
  | _ => go l

/-- `^([A-Za-z]{3,9})\s+(\d{1,2})(?:,?\s+(\d{2,4}))?$`: month name, day,
optional year.  With the terminal anchor a digit run longer than 2 can
never be completed, so the day run must itself have length 1 or 2. -/
def matchFull5 (l : List Char) : Option (List Char × Nat × Option Nat) :=
  let ls := l.takeWhile isAlpha
  if 3 ≤ ls.length && ls.length ≤ 9 then
    let rest1 := l.dropWhile isAlpha
    if 1 ≤ (rest1.takeWhile isWs).length then
      let rest2 := rest1.dropWhile isWs
      let ds := rest2.takeWhile isDigit
      if 1 ≤ ds.length && ds.length ≤ 2 then
        match rest2.dropWhile isDigit with
        | [] => some (ls, digitsToNat ds, none)
        | after =>
          match optYearTail after with
          | some y => some (ls, digitsToNat ds, some y)
          | none => none
      else none
    else none
  else none

/-- The `MONTHS` lookup table (keys are already lower-cased by the call
site, which applies `toLowerCase()`). -/
def monthLookup (l : List Char) : Option Nat :=
  let s := String.mk (l.map Char.toLower)
  if s = "jan" || s = "january" then some 1
  else if s = "feb" || s = "february" then some 2
  else if s = "mar" || s = "march" then some 3
  else if s = "apr" || s = "april" then some 4
  else if s = "may" then some 5
  else if s = "jun" || s = "june" then some 6
  else if s = "jul" || s = "july" then some 7
  else if s = "aug" || s = "august" then some 8
  else if s = "sep" || s = "sept" || s = "september" then some 9
  else if s = "oct" || s = "october" then some 10
  else if s = "nov" || s = "november" then some 11
  else if s = "dec" || s = "december" then some 12
  else none

/-- `normalizeYear`. -/
def normalizeYear (y : Nat) : Nat :=
  if y < 100 then (if 70 ≤ y then 1900 + y else 2000 + y) else y

/-- Proleptic Gregorian leap year, as implemented by `Date.UTC`. -/
def isLeapYear (y : Nat) : Bool :=
  y % 4 = 0 && (y % 100 ≠ 0 || y % 400 = 0)

/-- Length of a month under `Date.UTC`. -/
def daysInMonth (y m : Nat) : Nat :=
  if m = 2 then (if isLeapYear y then 29 else 28)
  else if m = 4 || m = 6 || m = 9 || m = 11 then 30
  else 31

/-- `String(n).padStart(w, "0")` for a natural number. -/
def padNat (w : Nat) (n : Nat) : List Char :=
  let ds := (Nat.repr n).data
  List.replicate (w - ds.length) '0' ++ ds

/-- `toIsoDate`: range check, then the `Date.UTC` round-trip.  The
round-trip fails exactly when the day overflows the month, or when
`0 ≤ year < 100` (ECMA-262 `MakeFullYear` turns such years into
`1900 + year`, so `getUTCFullYear()` differs). -/
def toIsoDate (y m d : Nat) : Option String :=
  if m < 1 || 12 < m || d < 1 || 31 < d then none
  else if y < 100 then none
  else if daysInMonth y m < d then none
  else some (String.mk (padNat 4 y ++ '-' :: (padNat 2 m ++ '-' :: padNat 2 d)))

/-- `DateOrderPreference`; the TypeScript `undefined` case is `Option`. -/
inductive DateOrderPreference where
  | dayFirst : DateOrderPreference
  | monthFirst : DateOrderPreference
deriving DecidableEq, Repr

/-- `parseDate(raw, preference)`.  `currentYear` stands for
`new Date().getUTCFullYear()`. -/
def parseDate (currentYear : Nat) (preference : Option DateOrderPreference)
    (raw : String) : Option String :=
  let value := trimChars raw.data
  match matchFull1 value with
  | some (y, m, d) => toIsoDate y m d
  | none =>
  match matchFull2 value with
  | some (first, second, yraw) =>
    let year := normalizeYear yraw
    if 12 < first then toIsoDate year second first
    else if 12 < second then toIsoDate year first second
    else
      match preference with
      | some .dayFirst => toIsoDate year second first
      | some .monthFirst => toIsoDate year first second
      | none => toIsoDate year first second
  | none =>
  match matchFull3 value with
  | some (d, name, yraw) =>
    match monthLookup name with
    | none => none
    | some m => toIsoDate (normalizeYear yraw) m d
  | none =>
  match matchFull4 value with
  | some (d, name) =>
    match monthLookup name with
    | none => none
    | some m => toIsoDate currentYear m d
  | none =>
  match matchFull5 value with
  | some (name, d, yopt) =>
    match monthLookup name with
    | none => none
    | some m =>
      let year := match yopt with | some yr => normalizeYear yr | none => currentYear
      toIsoDate year m d
  | none => none

/-! ## `parseAmount` -/

/-- `toUpperCase()` (ASCII, which is all the subsequent patterns use). -/
def toUpperChars (l : List Char) : List Char := l.map Char.toUpper

/-- Search for `(^|[^\d])-\s*\$?\d`; `prev` is the previous character. -/
def minusNegScan : Option Char → List Char → Bool
  | _, [] => false
  | prev, c :: cs =>
    (c = '-' &&
      (match prev with
       | none => true
       | some p => !isDigit p) &&
      (match eatOpt '$' (cs.dropWhile isWs) with
       | (_, x :: _) => isDigit x
       | (_, []) => false))
    || minusNegScan (some c) cs

/-- `replace(/\bCR\b|\bDR\b/g, "")` on the upper-cased text; `prev` is the
character of the original text before the current position (the global
replacement scans the original left to right). -/
def removeCRDR : Option Char → List Char → List Char
  | _, [] => []
  | _, [c] => c :: removeCRDR (some c) []
  | prev, c :: b :: rest =>
    if boundaryOk prev && (c = 'C' || c = 'D') && b = 'R' &&
        (match rest with
         | [] => true
         | d :: _ => !isWordChar d) then
      removeCRDR (some b) rest
    else c :: removeCRDR (some c) (b :: rest)

/-- The full-match test `^-?\d[\d,]*\.?\d*$`. -/
def numericShapeOk (l : List Char) : Bool :=
  let l1 := match l with | '-' :: r => r | r => r
  match l1 with
  | x :: xs =>
    if isDigit x then
      match xs.dropWhile isDigitComma with
      | [] => true
      | '.' :: r2 => r2.dropWhile isDigit = []
      | _ => false
    else false
  | [] => false

/-- `Number` on a comma-free string of the accepted shape
(`-?digits[.digits]`), as an exact rational. -/
def decValue (l : List Char) : ℚ :=
  let p := match l with | '-' :: r => (true, r) | r => (false, r)
  let ip := p.2.takeWhile isDigit
  let fp := match p.2.dropWhile isDigit with | '.' :: r2 => r2 | _ => []
  let v : ℚ := (digitsToNat ip : ℚ) + (digitsToNat fp : ℚ) / ((10 : ℚ) ^ fp.length)
  if p.1 then -v else v

/-- `raw.trim().toUpperCase()`, the `normalized` value of `parseAmount`. -/
def amountNormalized (raw : String) : List Char := toUpperChars (trimChars raw.data)

/-- `isCredit`: `/\bCR\b/.test(normalized)`. -/
def amountIsCredit (raw : String) : Bool :=
  boundScan (wordAtHere (String.data "cr")) none (amountNormalized raw)

/-- `isDebit`: `/\bDR\b/.test(normalized)`. -/
def amountIsDebit (raw : String) : Bool :=
  boundScan (wordAtHere (String.data "dr")) none (amountNormalized raw)

/-- `isParenNegative`: `normalized.includes("(") && normalized.includes(")")`. -/
def amountIsParenNegative (raw : String) : Bool :=
  (amountNormalized raw).contains '(' && (amountNormalized raw).contains ')'

/-- `isMinusNegative`: `/(^|[^\d])-\s*\$?\d/.test(normalized)`. -/
def amountIsMinusNegative (raw : String) : Bool :=
  minusNegScan none (amountNormalized raw)

/-- The `numeric` string of `parseAmount`: `CR`/`DR` words removed, then
the characters `(`, `)`, `,`, `$`, then all whitespace. -/
def amountNumeric (raw : String) : List Char :=
  ((removeCRDR none (amountNormalized raw)).filter
      (fun c => !(c = '(' || c = ')' || c = ',' || c = '$'))).filter
    (fun c => !isWs c)

/-- The numeric literal's value: `Number(numeric.replace(/,/g, ""))`. -/
def amountLiteral (raw : String) : ℚ :=
  decValue ((amountNumeric raw).filter (fun c => !(c = ',')))

/-- `parseAmount(raw)`. -/
def parseAmount (raw : String) : Option ℚ :=
  if amountNormalized raw = [] then none
  else if numericShapeOk (amountNumeric raw) then
    let amount := amountLiteral raw
    let sign : ℚ :=
      if amountIsCredit raw then 1
      else if amountIsParenNegative raw || amountIsMinusNegative raw || amountIsDebit raw then -1
      else if amount < 0 then -1 else 1
    some (|amount| * sign)
  else none

/-! ## Row classification and transaction extraction -/

/-- The output record.  The `currency` field of the TypeScript type is
optional and never set by the parser, so it is omitted here. -/
structure Transaction where
  date : String
  description : String
  amount : ℚ
  balance : Option ℚ
deriving DecidableEq, Repr

/-- `normalizeLine` on a `String`. -/
def normalizeLine (line : String) : String := String.mk (normalizeChars line.data)

/-- `isCandidateLine`. -/
def isCandidateLine (line : List Char) : Bool :=
  if line = [] || metadataTest line then false
  else if headerTest line && !(matchDateAtStart line).isSome then false
  else (matchDateAtStart line).isSome

/-- `isLikelyContinuation`. -/
def isLikelyContinuation (line : List Char) : Bool :=
  if line = [] then false
  else if metadataTest line then false
  else if headerTest line then false
  else if isCandidateLine line then false
  else !hasAmountToken line

/-- `parseTransactionLine(line, datePreference)`. -/
def parseTransactionLine (currentYear : Nat) (datePreference : Option DateOrderPreference)
    (line : List Char) : Option Transaction :=
  let clean := normalizeChars line
  if metadataTest clean then none
  else
    match matchDateAtStart clean with
    | none => none
    | some dateRaw =>
      match parseDate currentYear datePreference (String.mk dateRaw) with
      | none => none
      | some date =>
        let remainder := trimChars (clean.drop dateRaw.length)
        let ms := amountMatches remainder
        if ms.length = 0 then none
        else
          let amountIndex := if 2 ≤ ms.length then ms.length - 2 else ms.length - 1
          let am := ms.getD amountIndex (0, [])
          match parseAmount (String.mk am.2) with
          | none => none
          | some amount =>
            let balance :=
              if 2 ≤ ms.length then
                parseAmount (String.mk (ms.getD (ms.length - 1) (0, [])).2)
              else none
            let descriptionPart := trimChars (remainder.take am.1)
            let description := normalizeChars descriptionPart
            if description = [] || headerTest description then none
            else some { date := date, description := String.mk description,
                        amount := amount, balance := balance }

/-- `detectDatePreference(lines)`: the document-level vote. -/
def detectDatePreference (lines : List (List Char)) : Option DateOrderPreference :=
  let counts := lines.foldl
    (fun (p : Nat × Nat) line =>
      match matchDateAtStart line with
      | none => p
      | some raw =>
        match matchFull2 raw with
        | none => p
        | some (first, second, _) =>
          (p.1 + (if 12 < first && second ≤ 12 then 1 else 0),
           p.2 + (if 12 < second && first ≤ 12 then 1 else 0)))
    (0, 0)
  if counts.2 < counts.1 then some .dayFirst
  else if counts.1 < counts.2 then some .monthFirst
  else none

/-! ## `parseStatementText` -/

/-- The diagnostic counters of the returned `debug` record. -/
structure DebugInfo where
  candidateRows : Nat
  parsedRows : Nat
  validRows : Nat
  validRatio : ℚ
  datePreference : String
deriving DecidableEq, Repr

/-- `ParseResult`. -/
structure ParseResult where
  transactions : List Transaction
  warnings : List String
  confidence : ℚ
  debug : DebugInfo
deriving DecidableEq, Repr

/-- The accumulator threaded through the line loop. -/
structure ParseState where
  transactions : List Transaction
  candidateRows : Nat
  pendingCandidate : Option (List Char)
deriving DecidableEq, Repr

/-- The in-place description append
`prev.description = (prev.description + " " + line).trim()` applied to the
most recent transaction. -/
def appendToLast (ts : List Transaction) (line : List Char) : List Transaction :=
  match ts.getLast? with
  | none => ts
  | some prev =>
    ts.dropLast ++
      [{ prev with description := String.mk (trimChars (prev.description.data ++ ' ' :: line)) }]

/-- The branch of the loop body that examines the current line on its own
(reached when there is no pending candidate, or when the line is itself a
candidate). -/
def stepFresh (cy : Nat) (pref : Option DateOrderPreference)
    (transactions : List Transaction) (candidateRows : Nat)
    (pending : Option (List Char)) (isCandidate : Bool) (line : List Char) : ParseState :=
  match parseTransactionLine cy pref line with
  | some t => ⟨transactions ++ [t], candidateRows, none⟩
  | none =>
    if isCandidate then ⟨transactions, candidateRows, some line⟩
    else if 0 < transactions.length && isLikelyContinuation line then
      ⟨appendToLast transactions line, candidateRows, pending⟩
    else ⟨transactions, candidateRows, pending⟩

/-- One iteration of the `for (const line of lines)` loop. -/
def stepLine (cy : Nat) (pref : Option DateOrderPreference)
    (st : ParseState) (line : List Char) : ParseState :=
  let isCandidate := isCandidateLine line
  let candidateRows := if isCandidate then st.candidateRows + 1 else st.candidateRows
  match st.pendingCandidate with
  | some pending =>
    if isCandidate then
      stepFresh cy pref st.transactions candidateRows st.pendingCandidate isCandidate line
    else
      let combined := trimChars (pending ++ ' ' :: line)
      match parseTransactionLine cy pref combined with
      | some t => ⟨st.transactions ++ [t], candidateRows, none⟩
      | none =>
        ⟨st.transactions, candidateRows,
         if isLikelyContinuation line then some combined else none⟩
  | none => stepFresh cy pref st.transactions candidateRows none isCandidate line

/-- `toFixed(2)` re-read as a number: rounding to two decimal places
(round half up, which agrees with `toFixed` on the non-negative values the
scorer produces). -/
def roundTo2 (q : ℚ) : ℚ := ((round (q * 100) : ℤ) : ℚ) / 100

/-- The normalised, non-empty input lines. -/
def statementLines (text : String) : List (List Char) :=
  ((splitLines text.data).map normalizeChars).filter (fun l => l ≠ [])

/-- `validRows`: emitted transactions with a truthy date and a finite
amount (`Number.isFinite` holds for every rational). -/
def validRowsOf (transactions : List Transaction) : Nat :=
  (transactions.filter (fun t => !(t.date == ""))).length

/-- `ratio = candidateRows > 0 ? validRows / candidateRows : 0`. -/
def ratioOf (validRows candidateRows : Nat) : ℚ :=
  if 0 < candidateRows then (validRows : ℚ) / (candidateRows : ℚ) else 0

/-- `sizeFactor = Math.min(1, validRows / 8)`. -/
def sizeFactorOf (validRows : Nat) : ℚ := min 1 ((validRows : ℚ) / 8)

/-- `confidence = candidateRows === 0 ? 0 : Number((ratio * 0.7 + sizeFactor * 0.3).toFixed(2))`. -/
def confidenceOf (validRows candidateRows : Nat) : ℚ :=
  if candidateRows = 0 then 0
  else roundTo2 (ratioOf validRows candidateRows * (7 / 10) + sizeFactorOf validRows * (3 / 10))

/-- The three conditional warnings, in program order. -/
def warningsOf (validRows candidateRows : Nat) : List String :=
  (if candidateRows = 0 then
    ["No transaction-like rows were detected in extracted text."] else []) ++
  (if 0 < validRows && validRows < 3 then
    ["Few rows were parsed; review output carefully."] else []) ++
  (if 0 < ratioOf validRows candidateRows && ratioOf validRows candidateRows < 8 / 10 then
    ["Low parse reliability: fewer than 80% of candidate rows were valid."] else [])

/-- `parseStatementText(text)`; `currentYear` stands for the calendar year
read from the clock by `parseDate` for date forms without a year. -/
def parseStatementText (currentYear : Nat) (text : String) : ParseResult :=
  let lines := statementLines text
  let datePreference := detectDatePreference lines
  let final := lines.foldl (stepLine currentYear datePreference) ⟨[], 0, none⟩
  let transactions := final.transactions
  let candidateRows := final.candidateRows
  let validRows := validRowsOf transactions
  { transactions := transactions
    warnings := warningsOf validRows candidateRows
    confidence := confidenceOf validRows candidateRows
    debug :=
      { candidateRows := candidateRows
        parsedRows := transactions.length
        validRows := validRows
        validRatio := roundTo2 (ratioOf validRows candidateRows)
        datePreference :=
          match datePreference with
          | some .dayFirst => "day-first"
          | some .monthFirst => "month-first"
          | none => "unspecified" } }

/-- The text after the date token that `parseTransactionLine` scans for
amount tokens (defined whenever metadata and date-token matching pass). -/
def transactionRemainder (line : List Char) : Option (List Char) :=
  let clean := normalizeChars line
  if metadataTest clean then none
  else (matchDateAtStart clean).map fun dateRaw => trimChars (clean.drop dateRaw.length)

/-! ## Predicates used by the structural proofs -/

/-- Every whitespace character of `l` is a plain space. -/
def wsAllSpace (l : List Char) : Prop := ∀ c ∈ l, isWs c = true → c = ' '

/-- No two adjacent whitespace characters. -/
def noWsRun : List Char → Prop
  | [] => True
  | [_] => True
  | a :: b :: t => ¬(isWs a = true ∧ isWs b = true) ∧ noWsRun (b :: t)

/-- The first character, if any, is not whitespace. -/
def headNotWs : List Char → Prop
  | [] => True
  | c :: _ => isWs c = false

/-- No alphabetic character occurs (so no textual month name can match). -/
def noAlpha (l : List Char) : Prop := ∀ c ∈ l, isAlpha c = false

/-- The loop invariant behind the candidate-row bound: transactions plus a
possibly pending candidate never outnumber the counted candidate rows. -/
def stateOk (st : ParseState) : Prop :=
  st.transactions.length + (match st.pendingCandidate with | some _ => 1 | none => 0) ≤
    st.candidateRows

/-- Every held pending line is free of alphabetic characters. -/
def pendingOk (st : ParseState) : Prop :=
  ∀ p, st.pendingCandidate = some p → noAlpha p

end Statement2Csv

namespace Statement2Csv

/-! ## Concrete evaluations used by the claims -/

/-- C1: on the two-line fixture the parser holds the first (amount-free)
candidate line, merges it with the following amount line, infers the
day-first order from `15 > 12`, and emits exactly the one expected
transaction. -/
theorem claim_C1_continuation_merge (currentYear : Nat) :
    (parseStatementText currentYear
        "15/02/2026VISA-OPENAI *CHATGPT SUBSCR DUBLIN IEFRGN\n-$32.13$12,424.08").transactions =
      [{ date := "2026-02-15", description := "VISA-OPENAI *CHATGPT SUBSCR DUBLIN IEFRGN",
         amount := -3213 / 100, balance := some (1242408 / 100) }] := by
  with_unfolding_all rfl

/-- C2, counterexample: with no preference supplied, `"01/02/2026"` (both
components at most 12) parses with the FIRST component as the month —
`"2026-01-02"`, not the day-first reading `"2026-02-01"`. -/
theorem claim_C2_counterexample :
    parseDate 2026 none "01/02/2026" = some "2026-01-02" ∧
      (some "2026-01-02" : Option String) ≠ some "2026-02-01" :=
  ⟨rfl, by decide⟩

/-- The year-first pattern needs a four-digit leading run. -/
theorem matchFull1_none_of_short {l : List Char}
    (h : (l.takeWhile isDigit).length ≠ 4) : matchFull1 l = none := by
  unfold matchFull1
  rw [if_neg h]

/-- The day-month pattern bounds its leading digit run by two. -/
theorem matchFull2_digit_len {l : List Char} {a : Nat × Nat × Nat}
    (h : matchFull2 l = some a) : (l.takeWhile isDigit).length ≤ 2 := by
  by_contra hlen
  unfold matchFull2 at h
  rw [if_neg (by simp only [Bool.and_eq_true, decide_eq_true_eq]; omega)] at h
  exact Option.noConfusion h

/-- C2 (amended): for a numeric `D[/.-]M[/.-]Y` date whose two leading
components are both at most 12 and with no order preference supplied,
`parseDate` takes the FIRST component as the month and the second as the
day — the unspecified default coincides with the explicit month-first
branch, not with day-first. -/
theorem claim_C2_amended_default_month_first (currentYear : Nat) (raw : String)
    (first second yraw : Nat)
    (h : matchFull2 (trimChars raw.data) = some (first, second, yraw))
    (h1 : first ≤ 12) (h2 : second ≤ 12) :
    parseDate currentYear none raw = toIsoDate (normalizeYear yraw) first second := by
  simp only [parseDate]
  have hlen := matchFull2_digit_len h
  rw [matchFull1_none_of_short (by omega), h]
  simp only
  rw [if_neg (by omega), if_neg (by omega)]

/-- Witness: the amended default applied to `"01/02/2026"`. -/
theorem claim_C2_amended_default_month_first_witness :
    parseDate 2026 none "01/02/2026" = toIsoDate (normalizeYear 2026) 1 2 :=
  claim_C2_amended_default_month_first 2026 "01/02/2026" 1 2 2026 (by decide)
    (by decide) (by decide)

/-- C3: sign resolution of `parseAmount`.  A `CR` word forces a
non-negative result, overriding every negative marker; otherwise any of
parentheses, a minus sign, or a `DR` word forces a non-positive result;
with no marker at all the numeric literal's own signed value is returned
unchanged.  The five concrete rows of the sign table follow. -/
theorem claim_C3_sign_resolution :
    (∀ (s : String) (v : ℚ), parseAmount s = some v →
      (amountIsCredit s = true → 0 ≤ v) ∧
      (amountIsCredit s = false →
        (amountIsParenNegative s || amountIsMinusNegative s || amountIsDebit s) = true →
        v ≤ 0) ∧
      (amountIsCredit s = false → amountIsParenNegative s = false →
        amountIsMinusNegative s = false → amountIsDebit s = false →
        v = amountLiteral s)) ∧
    parseAmount "-54.23" = some (-5423 / 100) ∧
    parseAmount "(54.23)" = some (-5423 / 100) ∧
    parseAmount "54.23 DR" = some (-5423 / 100) ∧
    parseAmount "54.23 CR" = some (5423 / 100) ∧
    parseAmount "2,450.77" = some (245077 / 100) := by
  refine ⟨?_, by with_unfolding_all rfl, by with_unfolding_all rfl,
    by with_unfolding_all rfl, by with_unfolding_all rfl, by with_unfolding_all rfl⟩
  intro s v h
  simp only [parseAmount] at h
  by_cases h0 : amountNormalized s = []
  · rw [if_pos h0] at h
    exact Option.noConfusion h
  rw [if_neg h0] at h
  by_cases h1 : numericShapeOk (amountNumeric s) = true
  · rw [if_pos h1] at h
    have heq := Option.some.inj h
    subst heq
    refine ⟨fun hc => ?_, fun hc hm => ?_, fun hc hp hmn hd => ?_⟩
    · rw [if_pos hc, mul_one]
      exact abs_nonneg _
    · rw [if_neg (by simp [hc]), if_pos hm]
      simp [mul_neg_one, neg_nonpos, abs_nonneg]
    · rw [if_neg (by simp [hc]), if_neg (by simp [hp, hmn, hd])]
      rcases lt_or_le (amountLiteral s) 0 with hlt | hle
      · rw [if_pos hlt, abs_of_neg hlt]
        ring
      · rw [if_neg (not_lt.2 hle), abs_of_nonneg hle, mul_one]
  · rw [if_neg h1] at h
    exact Option.noConfusion h

/-- Witness for the sign-resolution theorem at `"54.23 DR"`. -/
theorem claim_C3_sign_resolution_witness :
    parseAmount "54.23 DR" = some (-5423 / 100) ∧ (-5423 / 100 : ℚ) ≤ 0 :=
  ⟨claim_C3_sign_resolution.2.2.2.1,
   (claim_C3_sign_resolution.1 "54.23 DR" (-5423 / 100)
      claim_C3_sign_resolution.2.2.2.1).2.1 (by decide) (by decide)⟩

/-- Division by a zero denominator is zero in `ℚ`, so the guarded ratio
equals the plain quotient. -/
theorem ratioOf_eq_div (v c : Nat) : ratioOf v c = (v : ℚ) / (c : ℚ) := by
  unfold ratioOf
  by_cases hc : 0 < c
  · simp [hc]
  · have hc0 : c = 0 := by omega
    simp [hc0]

/-- The scorer's confidence, written with the plain quotient. -/
theorem confidenceOf_eq (v c : Nat) :
    confidenceOf v c =
      if c = 0 then 0
      else roundTo2 ((v : ℚ) / (c : ℚ) * (7 / 10) + min 1 ((v : ℚ) / 8) * (3 / 10)) := by
  unfold confidenceOf sizeFactorOf
  rw [ratioOf_eq_div]

/-- The warning list, with the row-count test written as `v = 1 ∨ v = 2`. -/
theorem warningsOf_eq (v c : Nat) :
    warningsOf v c =
      (if c = 0 then
        ["No transaction-like rows were detected in extracted text."] else []) ++
      (if v = 1 ∨ v = 2 then
        ["Few rows were parsed; review output carefully."] else []) ++
      (if 0 < (v : ℚ) / (c : ℚ) ∧ (v : ℚ) / (c : ℚ) < 8 / 10 then
        ["Low parse reliability: fewer than 80% of candidate rows were valid."] else []) := by
  unfold warningsOf
  rw [ratioOf_eq_div]
  have h1 : (0 < v ∧ v < 3) ↔ (v = 1 ∨ v = 2) := by omega
  simp only [Bool.and_eq_true, decide_eq_true_eq, h1]

/-- C5: the returned confidence is exactly
`round(ratio*0.7 + sizeFactor*0.3, 2)` over the returned debug counters,
with `ratio = validRows/candidateRows` (zero when there are no candidate
rows — division by zero is zero here) and
`sizeFactor = min(1, validRows/8)`, and it is forced to `0` whenever
`candidateRows = 0`. -/
theorem claim_C5_confidence (currentYear : Nat) (text : String) :
    (parseStatementText currentYear text).confidence =
      if (parseStatementText currentYear text).debug.candidateRows = 0 then 0
      else
        roundTo2
          (((parseStatementText currentYear text).debug.validRows : ℚ) /
              ((parseStatementText currentYear text).debug.candidateRows : ℚ) * (7 / 10) +
            min 1 (((parseStatementText currentYear text).debug.validRows : ℚ) / 8) * (3 / 10)) := by
  simp only [parseStatementText]
  exact confidenceOf_eq _ _

/-- C6: `parseStatementText` always returns (it is a total function); the
warnings are exactly the ones whose conditions hold, in program order; a
zero candidate count forces confidence `0`; and the empty input yields no
transactions, the no-rows warning, and confidence `0`. -/
theorem claim_C6_warnings (currentYear : Nat) (text : String) :
    (parseStatementText currentYear text).warnings =
      ((if (parseStatementText currentYear text).debug.candidateRows = 0 then
          ["No transaction-like rows were detected in extracted text."] else []) ++
        (if (parseStatementText currentYear text).debug.validRows = 1 ∨
            (parseStatementText currentYear text).debug.validRows = 2 then
          ["Few rows were parsed; review output carefully."] else []) ++
        (if 0 < ((parseStatementText currentYear text).debug.validRows : ℚ) /
              ((parseStatementText currentYear text).debug.candidateRows : ℚ) ∧
            ((parseStatementText currentYear text).debug.validRows : ℚ) /
              ((parseStatementText currentYear text).debug.candidateRows : ℚ) < 8 / 10 then
          ["Low parse reliability: fewer than 80% of candidate rows were valid."] else [])) ∧
      ((parseStatementText currentYear text).debug.candidateRows = 0 →
        (parseStatementText currentYear text).confidence = 0) ∧
      (parseStatementText currentYear "").transactions = [] ∧
      (parseStatementText currentYear "").warnings =
        ["No transaction-like rows were detected in extracted text."] ∧
      (parseStatementText currentYear "").confidence = 0 := by
  refine ⟨?_, ?_, by with_unfolding_all rfl, by with_unfolding_all rfl,
    by with_unfolding_all rfl⟩
  · simp only [parseStatementText]
    exact warningsOf_eq _ _
  · simp only [parseStatementText]
    intro h
    simp [confidenceOf, h]

/-- Witness for the warning characterisation: the zero-candidate
implication discharged on the empty input. -/
theorem claim_C6_warnings_witness : (parseStatementText 2026 "").confidence = 0 :=
  (claim_C6_warnings 2026 "").2.1 (by with_unfolding_all rfl)

/-- C4, counterexample: on this line the remainder after the date token
carries two amount-shaped tokens (`4.50` and `6.00CR`), yet the emitted
transaction has no balance: the glued `CR` of the last token survives into
the numeric test of `parseAmount` (no `\b` boundary), which therefore
rejects it, and the code then leaves `balance` unset instead of using the
last token. -/
theorem claim_C4_counterexample :
    transactionRemainder (String.data "15/03/2026 Coffee 4.50 6.00CR") =
        some (String.data "Coffee 4.50 6.00CR") ∧
      (amountMatches (String.data "Coffee 4.50 6.00CR")).length = 2 ∧
      parseAmount "6.00CR" = none ∧
      parseTransactionLine 2026 none (String.data "15/03/2026 Coffee 4.50 6.00CR") =
        some { date := "2026-03-15", description := "Coffee", amount := 9 / 2, balance := none } :=
  ⟨by decide, by decide, by decide, by with_unfolding_all rfl⟩

/-- C4 (amended): for every line the extractor accepts, the transaction
amount is parsed from the second-to-last amount token when at least two
are present (from the only token otherwise), and the balance field equals
the RESULT of parsing the last token — so it is absent either when the
row has a single token or when the last token does not itself parse as an
amount (for example a glued `CR`/`DR` suffix); in particular a balance is
present only when a second token was found. -/
theorem claim_C4_amended_tie_break (cy : Nat) (pref : Option DateOrderPreference)
    (line : List Char) (t : Transaction)
    (h : parseTransactionLine cy pref line = some t) :
    (transactionRemainder line).isSome = true ∧
      1 ≤ (amountMatches ((transactionRemainder line).getD [])).length ∧
      (2 ≤ (amountMatches ((transactionRemainder line).getD [])).length →
        parseAmount (String.mk ((amountMatches ((transactionRemainder line).getD [])).getD
            ((amountMatches ((transactionRemainder line).getD [])).length - 2) (0, [])).2) =
          some t.amount ∧
        t.balance = parseAmount (String.mk
          ((amountMatches ((transactionRemainder line).getD [])).getD
            ((amountMatches ((transactionRemainder line).getD [])).length - 1) (0, [])).2)) ∧
      ((amountMatches ((transactionRemainder line).getD [])).length = 1 →
        parseAmount (String.mk
            ((amountMatches ((transactionRemainder line).getD [])).getD 0 (0, [])).2) =
          some t.amount ∧
        t.balance = none) ∧
      (t.balance ≠ none → 2 ≤ (amountMatches ((transactionRemainder line).getD [])).length) := by
  simp only [parseTransactionLine] at h
  by_cases hmd : metadataTest (normalizeChars line) = true
  · rw [if_pos hmd] at h
    exact Option.noConfusion h
  rw [if_neg hmd] at h
  cases hd : matchDateAtStart (normalizeChars line) with
  | none =>
    rw [hd] at h
    exact Option.noConfusion h
  | some dateRaw =>
    rw [hd] at h
    simp only at h
    cases hpd : parseDate cy pref (String.mk dateRaw) with
    | none =>
      rw [hpd] at h
      exact Option.noConfusion h
    | some date =>
      rw [hpd] at h
      simp only at h
      have hrem : transactionRemainder line =
          some (trimChars ((normalizeChars line).drop dateRaw.length)) := by
        unfold transactionRemainder
        rw [if_neg hmd, hd]
        rfl
      rw [hrem]
      simp only [Option.isSome_some, Option.getD_some, true_and]
      by_cases hlen : (amountMatches (trimChars ((normalizeChars line).drop dateRaw.length))).length = 0
      · rw [if_pos hlen] at h
        exact Option.noConfusion h
      rw [if_neg hlen] at h
      by_cases hlen2 : 2 ≤ (amountMatches (trimChars ((normalizeChars line).drop dateRaw.length))).length
      · simp only [if_pos hlen2] at h
        cases hpa : parseAmount (String.mk
            ((amountMatches (trimChars ((normalizeChars line).drop dateRaw.length))).getD
              ((amountMatches (trimChars ((normalizeChars line).drop dateRaw.length))).length - 2)
              (0, [])).2) with
        | none =>
          rw [hpa] at h
          exact Option.noConfusion h
        | some amount =>
          rw [hpa] at h
          simp only at h
          split_ifs at h with hdesc
          have ht := (Option.some.inj h).symm
          subst ht
          exact ⟨by omega, fun _ => ⟨rfl, rfl⟩, fun h1 => absurd h1 (by omega),
            fun _ => hlen2⟩
      · simp only [if_neg hlen2] at h
        cases hpa : parseAmount (String.mk
            ((amountMatches (trimChars ((normalizeChars line).drop dateRaw.length))).getD
              ((amountMatches (trimChars ((normalizeChars line).drop dateRaw.length))).length - 1)
              (0, [])).2) with
        | none =>
          rw [hpa] at h
          exact Option.noConfusion h
        | some amount =>
          rw [hpa] at h
          simp only at h
          split_ifs at h with hdesc
          have ht := (Option.some.inj h).symm
          subst ht
          refine ⟨by omega, fun h2 => absurd h2 hlen2, fun h1 => ?_, fun hb => absurd rfl hb⟩
          rw [show (amountMatches (trimChars ((normalizeChars line).drop dateRaw.length))).length - 1 = 0
            from by omega] at hpa
          exact ⟨hpa, rfl⟩

/-- Witness for the tie-break theorem on a concrete accepted line with two
amount tokens whose last token carries a glued `CR`. -/
theorem claim_C4_amended_tie_break_witness :
    ({ date := "2026-03-16", description := "Lunch", amount := 9 / 2,
       balance := none } : Transaction).balance =
      parseAmount (String.mk ((amountMatches ((transactionRemainder
            (String.data "16/03/2026 Lunch 4.50 6.00CR")).getD [])).getD
          ((amountMatches ((transactionRemainder
            (String.data "16/03/2026 Lunch 4.50 6.00CR")).getD [])).length - 1) (0, [])).2) :=
  ((claim_C4_amended_tie_break 2026 none (String.data "16/03/2026 Lunch 4.50 6.00CR")
      { date := "2026-03-16", description := "Lunch", amount := 9 / 2, balance := none }
      (by with_unfolding_all rfl)).2.2.1 (by decide)).2

/-- C7, counterexample: the glued header-only line
`"DateDescriptionAmountBalance"` has no word boundaries between the
keywords, so `HEADER_LINE` (which uses `\b`) does not recognise it; the
line is continuation-like and its text is appended to the previous
transaction's description. -/
theorem claim_C7_counterexample :
    (parseStatementText 2026 "15/03/2026 Coffee 4.50\nDateDescriptionAmountBalance").transactions =
      [{ date := "2026-03-15", description := "Coffee DateDescriptionAmountBalance",
         amount := 9 / 2, balance := none }] := by
  with_unfolding_all rfl

/-- C7 (amended): a header-keyword line (in the word-boundary sense of
`HEADER_LINE`) is never continuation-like; the glued line
`"DateDescriptionAmountBalance"` is never a candidate and never parses as
a transaction, but the word-boundary test does NOT fire on it, so it IS
continuation-like. -/
theorem claim_C7_amended_header :
    (∀ l : List Char, headerTest l = true → isLikelyContinuation l = false) ∧
      isCandidateLine (String.data "DateDescriptionAmountBalance") = false ∧
      (∀ (cy : Nat) (pref : Option DateOrderPreference),
        parseTransactionLine cy pref (String.data "DateDescriptionAmountBalance") = none) ∧
      headerTest (String.data "DateDescriptionAmountBalance") = false ∧
      isLikelyContinuation (String.data "DateDescriptionAmountBalance") = true := by
  refine ⟨?_, by decide, fun cy pref => rfl, by decide, by decide⟩
  intro l hh
  cases l with
  | nil => exact absurd hh (by decide)
  | cons c cs =>
    unfold isLikelyContinuation
    rw [if_neg (by simp)]
    by_cases hm : metadataTest (c :: cs) = true
    · rw [if_pos hm]
    · rw [if_neg hm, if_pos hh]

/-- Witness: a spaced header line is rejected as a continuation. -/
theorem claim_C7_amended_header_witness :
    isLikelyContinuation (String.data "Total balance") = false :=
  claim_C7_amended_header.1 (String.data "Total balance") (by decide)

/-- C8 (amended): with a pending candidate held, a NON-candidate line is
first merged (single space) with the held text and extraction attempted on
the merge: success emits the merged transaction and clears the pending
state; failure keeps the merge as pending exactly when the new line is
continuation-like and otherwise drops the held text without treating the
new line as a fresh candidate.  A line that IS a candidate is never
merged: it is parsed alone, the held text being dropped on success and
replaced by the new line on failure. -/
theorem claim_C8_amended_pending_merge (cy : Nat) (pref : Option DateOrderPreference)
    (st : ParseState) (p line : List Char) (hp : st.pendingCandidate = some p) :
    (isCandidateLine line = false →
      stepLine cy pref st line =
        match parseTransactionLine cy pref (trimChars (p ++ ' ' :: line)) with
        | some t => ⟨st.transactions ++ [t], st.candidateRows, none⟩
        | none =>
          ⟨st.transactions, st.candidateRows,
            if isLikelyContinuation line then some (trimChars (p ++ ' ' :: line)) else none⟩) ∧
    (isCandidateLine line = true →
      stepLine cy pref st line =
        match parseTransactionLine cy pref line with
        | some t => ⟨st.transactions ++ [t], st.candidateRows + 1, none⟩
        | none => ⟨st.transactions, st.candidateRows + 1, some line⟩) := by
  constructor
  · intro hc
    cases hparse : parseTransactionLine cy pref (trimChars (p ++ ' ' :: line)) with
    | some t => simp [stepLine, hp, hc, hparse]
    | none => simp [stepLine, hp, hc, hparse]
  · intro hc
    cases hparse : parseTransactionLine cy pref line with
    | some t => simp [stepLine, stepFresh, hp, hc, hparse]
    | none => simp [stepLine, stepFresh, hp, hc, hparse]

/-- Witness: the merge equation applied with a held candidate and the
amount-only line `"-$4.50"`. -/
theorem claim_C8_amended_pending_merge_witness :
    stepLine 2026 none ⟨[], 1, some (String.data "15/03/2026 Coffee")⟩ (String.data "-$4.50") =
      match parseTransactionLine 2026 none
          (trimChars (String.data "15/03/2026 Coffee" ++ ' ' :: String.data "-$4.50")) with
      | some t => ⟨[] ++ [t], 1, none⟩
      | none =>
        ⟨[], 1,
          if isLikelyContinuation (String.data "-$4.50") then
            some (trimChars (String.data "15/03/2026 Coffee" ++ ' ' :: String.data "-$4.50"))
          else none⟩ :=
  (claim_C8_amended_pending_merge 2026 none
    ⟨[], 1, some (String.data "15/03/2026 Coffee")⟩
    (String.data "15/03/2026 Coffee") (String.data "-$4.50") rfl).1 (by decide)

/-- C8, counterexample: after `"15/03/2026 Coffee"` is held as the pending
candidate, the next line is itself a candidate, so the code does NOT try
the concatenation: it parses the new line alone and emits `Tea`, although
extraction on the merged text would have succeeded with a different
transaction. -/
theorem claim_C8_counterexample :
    stepLine 2026 (some .dayFirst) ⟨[], 0, none⟩ (String.data "15/03/2026 Coffee") =
        ⟨[], 1, some (String.data "15/03/2026 Coffee")⟩ ∧
      detectDatePreference (statementLines "15/03/2026 Coffee\n16/03/2026 Tea 5.00") =
        some .dayFirst ∧
      parseTransactionLine 2026 (some .dayFirst)
          (trimChars (String.data "15/03/2026 Coffee" ++ ' ' :: String.data "16/03/2026 Tea 5.00")) =
        some { date := "2026-03-15", description := "Coffee 16/03/2026 Tea",
               amount := 5, balance := none } ∧
      (parseStatementText 2026 "15/03/2026 Coffee\n16/03/2026 Tea 5.00").transactions =
        [{ date := "2026-03-16", description := "Tea", amount := 5, balance := none }] := by
  refine ⟨by with_unfolding_all rfl, by decide, by with_unfolding_all rfl,
    by with_unfolding_all rfl⟩

/-- C9, counterexample: the output depends on the clock.  For a date
written without a year (`"5 Jan"`), `parseDate` substitutes the current
UTC year, so the same input parses differently in different years. -/
theorem claim_C9_counterexample :
    parseStatementText 2026 "5 Jan Coffee 4.00" ≠
      parseStatementText 2027 "5 Jan Coffee 4.00" := by
  intro h
  have h2 : (parseStatementText 2026 "5 Jan Coffee 4.00").transactions.map Transaction.date =
      (parseStatementText 2027 "5 Jan Coffee 4.00").transactions.map Transaction.date :=
    congrArg (fun r => r.transactions.map Transaction.date) h
  have e1 : (parseStatementText 2026 "5 Jan Coffee 4.00").transactions.map Transaction.date =
      ["2026-01-05"] := by with_unfolding_all rfl
  have e2 : (parseStatementText 2027 "5 Jan Coffee 4.00").transactions.map Transaction.date =
      ["2027-01-05"] := by with_unfolding_all rfl
  rw [e1, e2] at h2
  exact absurd h2 (by decide)

/-! ## Structure of `normalizeChars`: idempotence -/

/-- Characters of the collapsed text: the inserted space or an original
character. -/
theorem mem_collapseWs {x : Char} {b : Bool} {l : List Char}
    (h : x ∈ collapseWs b l) : x = ' ' ∨ x ∈ l := by
  induction l generalizing b with
  | nil => simp [collapseWs] at h
  | cons c cs ih =>
    unfold collapseWs at h
    by_cases hw : isWs c = true
    · rw [if_pos hw] at h
      cases b with
      | true =>
        rcases ih h with h1 | h1
        · exact Or.inl h1
        · exact Or.inr (List.mem_cons_of_mem c h1)
      | false =>
        simp only [Bool.false_eq_true, if_false] at h
        rcases List.mem_cons.1 h with h1 | h1
        · exact Or.inl h1
        · rcases ih h1 with h2 | h2
          · exact Or.inl h2
          · exact Or.inr (List.mem_cons_of_mem c h2)
    · rw [if_neg hw] at h
      rcases List.mem_cons.1 h with h1 | h1
      · exact Or.inr (h1 ▸ List.mem_cons_self c cs)
      · rcases ih h1 with h2 | h2
        · exact Or.inl h2
        · exact Or.inr (List.mem_cons_of_mem c h2)

/-- Characters survive `trimRightChars`. -/
theorem mem_trimRightChars {x : Char} : ∀ {l : List Char},
    x ∈ trimRightChars l → x ∈ l := by
  intro l
  induction l with
  | nil => simp [trimRightChars]
  | cons c cs ih =>
    intro h
    unfold trimRightChars at h
    cases hr : trimRightChars cs with
    | nil =>
      rw [hr] at h
      by_cases hw : isWs c = true
      · rw [if_pos hw] at h
        simp at h
      · rw [if_neg hw] at h
        simp only [List.mem_singleton] at h
        exact h ▸ List.mem_cons_self c cs
    | cons d t =>
      rw [hr] at h
      rcases List.mem_cons.1 h with h1 | h1
      · exact h1 ▸ List.mem_cons_self c cs
      · exact List.mem_cons_of_mem c (ih (hr ▸ h1))

/-- Characters survive `trimChars`. -/
theorem mem_trimChars {x : Char} {l : List Char} (h : x ∈ trimChars l) : x ∈ l :=
  List.Sublist.mem (mem_trimRightChars h) (List.dropWhile_sublist isWs)

/-- Characters of the normalised line: a space or an original character. -/
theorem mem_normalizeChars {x : Char} {l : List Char}
    (h : x ∈ normalizeChars l) : x = ' ' ∨ x ∈ l :=
  mem_collapseWs (mem_trimChars h)

/-- All whitespace in the collapsed text is the inserted plain space. -/
theorem collapseWs_wsAllSpace (l : List Char) : ∀ b, wsAllSpace (collapseWs b l) := by
  induction l with
  | nil => intro b x hx _; simp [collapseWs] at hx
  | cons c cs ih =>
    intro b x hx hw
    unfold collapseWs at hx
    by_cases hwc : isWs c = true
    · rw [if_pos hwc] at hx
      cases b with
      | true => exact ih true x hx hw
      | false =>
        simp only [Bool.false_eq_true, if_false] at hx
        rcases List.mem_cons.1 hx with h1 | h1
        · exact h1
        · exact ih true x h1 hw
    · rw [if_neg hwc] at hx
      rcases List.mem_cons.1 hx with h1 | h1
      · exact absurd (h1 ▸ hw) hwc
      · exact ih false x h1 hw

/-- After a collapsed whitespace run the next emitted character is not
whitespace. -/
theorem collapseWs_true_headNotWs (l : List Char) : headNotWs (collapseWs true l) := by
  induction l with
  | nil => trivial
  | cons c cs ih =>
    unfold collapseWs
    by_cases hwc : isWs c = true
    · rw [if_pos hwc]
      simpa using ih
    · rw [if_neg hwc]
      simpa [headNotWs] using hwc

/-- `noWsRun` restricts to the tail. -/
theorem noWsRun_tail {c : Char} {cs : List Char} (h : noWsRun (c :: cs)) : noWsRun cs := by
  cases cs with
  | nil => trivial
  | cons d t => exact h.2

/-- Extend `noWsRun` by a safe head. -/
theorem noWsRun_cons {a : Char} {x : List Char}
    (h : isWs a = false ∨ headNotWs x) (hx : noWsRun x) : noWsRun (a :: x) := by
  cases x with
  | nil => trivial
  | cons d t =>
    refine ⟨?_, hx⟩
    rintro ⟨ha, hd⟩
    rcases h with h | h
    · simp [h] at ha
    · simp only [headNotWs] at h
      simp [h] at hd

/-- The collapsed text has no whitespace run of length two. -/
theorem collapseWs_noWsRun (l : List Char) : ∀ b, noWsRun (collapseWs b l) := by
  induction l with
  | nil => intro b; simp only [collapseWs]; trivial
  | cons c cs ih =>
    intro b
    unfold collapseWs
    by_cases hwc : isWs c = true
    · rw [if_pos hwc]
      cases b with
      | true => simpa using ih true
      | false =>
        simp only [Bool.false_eq_true, if_false]
        exact noWsRun_cons (Or.inr (collapseWs_true_headNotWs cs)) (ih true)
    · rw [if_neg hwc]
      exact noWsRun_cons (Or.inl ((Bool.not_eq_true _) ▸ hwc)) (ih false)

/-- The head after dropping leading whitespace. -/
theorem headNotWs_dropWhile (l : List Char) : headNotWs (l.dropWhile isWs) := by
  induction l with
  | nil => trivial
  | cons c cs ih =>
    rw [List.dropWhile_cons]
    by_cases hwc : isWs c = true
    · simpa [hwc] using ih
    · simp [hwc, headNotWs]

/-- `noWsRun` survives dropping leading whitespace. -/
theorem noWsRun_dropWhile {l : List Char} (h : noWsRun l) : noWsRun (l.dropWhile isWs) := by
  induction l with
  | nil => trivial
  | cons c cs ih =>
    rw [List.dropWhile_cons]
    by_cases hwc : isWs c = true
    · simp only [hwc, if_true]
      exact ih (noWsRun_tail h)
    · simpa [hwc] using h

/-- `trimRightChars` keeps the head character when non-empty. -/
theorem trimRightChars_shape (c : Char) (cs : List Char) :
    trimRightChars (c :: cs) = [] ∨ ∃ r, trimRightChars (c :: cs) = c :: r := by
  unfold trimRightChars
  cases htr : trimRightChars cs with
  | nil =>
    by_cases hwc : isWs c = true
    · rw [if_pos hwc]
      exact Or.inl rfl
    · rw [if_neg hwc]
      exact Or.inr ⟨[], rfl⟩
  | cons d t => exact Or.inr ⟨d :: t, rfl⟩

/-- `noWsRun` survives trimming on the right. -/
theorem noWsRun_trimRight : ∀ {l : List Char}, noWsRun l → noWsRun (trimRightChars l) := by
  intro l
  induction l with
  | nil => intro _; trivial
  | cons c cs ih =>
    intro h
    unfold trimRightChars
    cases htr : trimRightChars cs with
    | nil =>
      by_cases hwc : isWs c = true
      · rw [if_pos hwc]
        trivial
      · rw [if_neg hwc]
        trivial
    | cons d t =>
      have hdt : noWsRun (d :: t) := htr ▸ ih (noWsRun_tail h)
      refine noWsRun_cons ?_ hdt
      cases cs with
      | nil => simp [trimRightChars] at htr
      | cons e cs2 =>
        rcases trimRightChars_shape e cs2 with h0 | ⟨r, hr⟩
        · rw [h0] at htr
          exact absurd htr (by simp)
        · rw [hr] at htr
          injection htr with h1 _
          by_cases hwc : isWs c = true
          · refine Or.inr ?_
            simp only [headNotWs]
            -- d = e, and the pair (c, e) of the input forbids double whitespace
            by_cases hwd : isWs d = true
            · exact absurd ⟨hwc, h1 ▸ hwd⟩ h.1
            · exact (Bool.not_eq_true _) ▸ hwd
          · exact Or.inl ((Bool.not_eq_true _) ▸ hwc)

/-- Unfolding equation of `trimRightChars` when the tail trims to `[]`. -/
theorem trimRightChars_cons_nil {c : Char} {cs : List Char}
    (h : trimRightChars cs = []) :
    trimRightChars (c :: cs) = if isWs c = true then [] else [c] := by
  rw [trimRightChars, h]

/-- Unfolding equation of `trimRightChars` when the tail trims to a
non-empty list. -/
theorem trimRightChars_cons_cons {c : Char} {cs : List Char} {d : Char} {t : List Char}
    (h : trimRightChars cs = d :: t) :
    trimRightChars (c :: cs) = c :: d :: t := by
  rw [trimRightChars, h]

/-- Trimming on the right is idempotent. -/
theorem trimRightChars_idem : ∀ l : List Char,
    trimRightChars (trimRightChars l) = trimRightChars l := by
  intro l
  induction l with
  | nil => rfl
  | cons c cs ih =>
    cases htr : trimRightChars cs with
    | nil =>
      rw [trimRightChars_cons_nil htr]
      by_cases hwc : isWs c = true
      · rw [if_pos hwc]
        rfl
      · rw [if_neg hwc, trimRightChars_cons_nil (rfl : trimRightChars [] = []), if_neg hwc]
    | cons d t =>
      have h2 : trimRightChars (d :: t) = d :: t := by rw [← htr, ih]
      rw [trimRightChars_cons_cons htr, trimRightChars_cons_cons h2]

/-- The head survives trimming on the right. -/
theorem headNotWs_trimRight {l : List Char} (h : headNotWs l) :
    headNotWs (trimRightChars l) := by
  cases l with
  | nil => trivial
  | cons c cs =>
    rcases trimRightChars_shape c cs with h0 | ⟨r, hr⟩
    · rw [h0]
      trivial
    · rw [hr]
      exact h

/-- Dropping leading whitespace is the identity on a trimmed head. -/
theorem dropWhile_of_headNotWs {l : List Char} (h : headNotWs l) :
    l.dropWhile isWs = l := by
  cases l with
  | nil => rfl
  | cons c cs =>
    simp only [headNotWs] at h
    simp [List.dropWhile_cons, h]

/-- `collapseWs` fixes a text whose whitespace is already collapsed. -/
theorem collapseWs_fix : ∀ l : List Char, wsAllSpace l → noWsRun l →
    collapseWs false l = l ∧ (headNotWs l → collapseWs true l = l) := by
  intro l
  induction l with
  | nil => intro _ _; exact ⟨rfl, fun _ => rfl⟩
  | cons c cs ih =>
    intro hsp hrun
    have hcs := ih (fun x hx hw => hsp x (List.mem_cons_of_mem c hx) hw) (noWsRun_tail hrun)
    by_cases hwc : isWs c = true
    · have hc' : c = ' ' := hsp c (List.mem_cons_self c cs) hwc
      constructor
      · unfold collapseWs
        rw [if_pos hwc]
        simp only [Bool.false_eq_true, if_false]
        rw [hc']
        congr 1
        apply hcs.2
        cases cs with
        | nil => trivial
        | cons d t =>
          by_cases hwd : isWs d = true
          · exact absurd ⟨hwc, hwd⟩ hrun.1
          · simpa [headNotWs] using ((Bool.not_eq_true _) ▸ hwd)
      · intro hhead
        simp only [headNotWs] at hhead
        rw [hhead] at hwc
        exact Bool.noConfusion hwc
    · constructor
      · unfold collapseWs
        rw [if_neg hwc, hcs.1]
      · intro _
        unfold collapseWs
        rw [if_neg hwc, hcs.1]

/-- `normalizeLine` is idempotent: re-normalising a normalised line is the
identity (the source applies it both in the line loop and inside
`parseTransactionLine`). -/
theorem normalizeChars_idem (l : List Char) :
    normalizeChars (normalizeChars l) = normalizeChars l := by
  unfold normalizeChars trimChars trimLeftChars
  have hspY := collapseWs_wsAllSpace l false
  have hrunY := collapseWs_noWsRun l false
  have hspN : wsAllSpace (trimRightChars ((collapseWs false l).dropWhile isWs)) := by
    intro x hx hw
    exact hspY x (List.Sublist.mem (mem_trimRightChars hx) (List.dropWhile_sublist isWs)) hw
  have hrunN : noWsRun (trimRightChars ((collapseWs false l).dropWhile isWs)) :=
    noWsRun_trimRight (noWsRun_dropWhile hrunY)
  have hheadN : headNotWs (trimRightChars ((collapseWs false l).dropWhile isWs)) :=
    headNotWs_trimRight (headNotWs_dropWhile (collapseWs false l))
  rw [(collapseWs_fix _ hspN hrunN).1, dropWhile_of_headNotWs hheadN, trimRightChars_idem]

/-! ## The candidate-row bound (C10) -/

/-- A line that the extractor accepts is classified as a candidate (it is
normalised in the loop, passes the metadata filter, and starts with a date
token). -/
theorem parseTransactionLine_isCandidate {cy : Nat} {pref : Option DateOrderPreference}
    {l : List Char} {t : Transaction} (hn : normalizeChars l = l)
    (h : parseTransactionLine cy pref l = some t) : isCandidateLine l = true := by
  simp only [parseTransactionLine] at h
  by_cases hmd : metadataTest (normalizeChars l) = true
  · rw [if_pos hmd] at h
    exact Option.noConfusion h
  cases hd : matchDateAtStart (normalizeChars l) with
  | none =>
    rw [if_neg hmd, hd] at h
    exact Option.noConfusion h
  | some dateRaw =>
    rw [hn] at hmd hd
    have hne : l ≠ [] := by
      intro he
      rw [he, show matchDateAtStart ([] : List Char) = none from rfl] at hd
      exact Option.noConfusion hd
    unfold isCandidateLine
    rw [if_neg (by simp [hne, hmd]), if_neg (by simp [hd])]
    simp [hd]

/-- The in-place description append does not change the number of
transactions. -/
theorem appendToLast_length (ts : List Transaction) (line : List Char) :
    (appendToLast ts line).length = ts.length := by
  unfold appendToLast
  cases hl : ts.getLast? with
  | none => rfl
  | some prev =>
    have hne : ts ≠ [] := by
      intro he
      rw [he] at hl
      exact Option.noConfusion hl
    have hpos : 0 < ts.length := List.length_pos.2 hne
    simp [List.length_dropLast]
    omega

/-- One loop step preserves the candidate-row invariant. -/
theorem stepLine_stateOk {cy : Nat} {pref : Option DateOrderPreference} {st : ParseState}
    {line : List Char} (hn : normalizeChars line = line) (hinv : stateOk st) :
    stateOk (stepLine cy pref st line) := by
  have hlen := appendToLast_length st.transactions line
  unfold stateOk at hinv ⊢
  simp only [stepLine]
  cases hp : st.pendingCandidate with
  | none =>
    rw [hp] at hinv
    simp only at hinv
    simp only [stepFresh]
    cases hparse : parseTransactionLine cy pref line with
    | some t =>
      have hc := parseTransactionLine_isCandidate hn hparse
      simp [hc, List.length_append]
      omega
    | none =>
      by_cases hc : isCandidateLine line = true
      · simp [hc]
        omega
      · simp only [Bool.not_eq_true] at hc
        simp only [hc, Bool.false_eq_true, if_false]
        split_ifs with h2
        · simp [hlen]
          omega
        · simp
          omega
  | some p =>
    rw [hp] at hinv
    simp only at hinv
    by_cases hc : isCandidateLine line = true
    · simp only [hc, if_true, Bool.not_true, stepFresh]
      cases hparse : parseTransactionLine cy pref line with
      | some t =>
        simp [List.length_append]
        omega
      | none =>
        simp [hc]
        omega
    · simp only [Bool.not_eq_true] at hc
      simp only [hc, Bool.false_eq_true, if_false]
      cases hparse : parseTransactionLine cy pref (trimChars (p ++ ' ' :: line)) with
      | some t =>
        simp [List.length_append]
        omega
      | none =>
        split_ifs with h2
        · simp
          omega
        · simp
          omega

/-- The invariant holds after folding any list of normalised lines. -/
theorem foldl_stateOk (cy : Nat) (pref : Option DateOrderPreference) :
    ∀ (lines : List (List Char)) (st : ParseState),
      (∀ l ∈ lines, normalizeChars l = l) → stateOk st →
      stateOk (lines.foldl (stepLine cy pref) st) := by
  intro lines
  induction lines with
  | nil => exact fun st _ h => h
  | cons l ls ih =>
    intro st hall hst
    simp only [List.foldl_cons]
    exact ih _ (fun x hx => hall x (List.mem_cons_of_mem l hx))
      (stepLine_stateOk (hall l (List.mem_cons_self l ls)) hst)

/-- Every line handed to the loop is a fixed point of the normaliser. -/
theorem statementLines_normalized (text : String) :
    ∀ l ∈ statementLines text, normalizeChars l = l := by
  intro l hl
  unfold statementLines at hl
  rcases List.mem_filter.1 hl with ⟨hmem, _⟩
  rcases List.mem_map.1 hmem with ⟨raw, _, rfl⟩
  exact normalizeChars_idem raw

/-- Two-decimal rounding keeps values below one below one. -/
theorem roundTo2_le_one {q : ℚ} (h : q ≤ 1) : roundTo2 q ≤ 1 := by
  unfold roundTo2
  rw [div_le_one (by norm_num : (0 : ℚ) < 100)]
  have h2 : round (q * 100) ≤ round ((100 : ℚ)) := by
    rw [round_eq, round_eq]
    exact Int.floor_mono (by nlinarith)
  rw [round_ofNat] at h2
  exact_mod_cast h2

/-- C10: every emitted transaction consumes a candidate row, so the
number of parsed rows reported in the debug counters never exceeds the
candidate-row count, and the reported valid ratio never exceeds one. -/
theorem claim_C10_parsed_le_candidates (currentYear : Nat) (text : String) :
    (parseStatementText currentYear text).debug.parsedRows ≤
        (parseStatementText currentYear text).debug.candidateRows ∧
      (parseStatementText currentYear text).debug.validRatio ≤ 1 := by
  simp only [parseStatementText]
  have hfold := foldl_stateOk currentYear (detectDatePreference (statementLines text))
    (statementLines text) ⟨[], 0, none⟩ (statementLines_normalized text)
    (by simp [stateOk])
  unfold stateOk at hfold
  have hlen : ((statementLines text).foldl
        (stepLine currentYear (detectDatePreference (statementLines text)))
        ⟨[], 0, none⟩).transactions.length ≤
      ((statementLines text).foldl
        (stepLine currentYear (detectDatePreference (statementLines text)))
        ⟨[], 0, none⟩).candidateRows := by
    cases hpend : ((statementLines text).foldl
        (stepLine currentYear (detectDatePreference (statementLines text)))
        ⟨[], 0, none⟩).pendingCandidate with
    | none =>
      rw [hpend] at hfold
      simp at hfold
      omega
    | some p =>
      rw [hpend] at hfold
      simp at hfold
      omega
  refine ⟨hlen, ?_⟩
  apply roundTo2_le_one
  unfold ratioOf
  split_ifs with hc
  · rw [div_le_one (by exact_mod_cast hc)]
    have hv : validRowsOf ((statementLines text).foldl
          (stepLine currentYear (detectDatePreference (statementLines text)))
          ⟨[], 0, none⟩).transactions ≤
        ((statementLines text).foldl
          (stepLine currentYear (detectDatePreference (statementLines text)))
          ⟨[], 0, none⟩).transactions.length := List.length_filter_le _ _
    exact_mod_cast le_trans hv hlen
  · norm_num

/-! ## Year independence on letter-free input (C9) -/

/-- A digit is not a letter. -/
theorem isAlpha_false_of_isDigit {c : Char} (h : isDigit c = true) : isAlpha c = false := by
  unfold isDigit isAlpha at *
  simp [Char.isDigit, Char.isAlpha, Char.isUpper, Char.isLower, UInt32.le_def,
    BitVec.le_def] at *
  omega

/-- A date separator is not a letter. -/
theorem isAlpha_false_of_isSep {c : Char} (h : isSep c = true) : isAlpha c = false := by
  unfold isSep at h
  simp only [Bool.or_eq_true, decide_eq_true_eq] at h
  rcases h with (h | h) | h <;> subst h <;> decide

/-- `noAlpha` restricts along any character-subset map. -/
theorem noAlpha_sub {l m : List Char} (hsub : ∀ x ∈ m, x ∈ l) (h : noAlpha l) : noAlpha m :=
  fun c hc => h c (hsub c hc)

/-- `noAlpha` survives `dropWhile`. -/
theorem noAlpha_dropWhile (p : Char → Bool) {l : List Char} (h : noAlpha l) :
    noAlpha (l.dropWhile p) :=
  noAlpha_sub (fun _ hx => List.Sublist.mem hx (List.dropWhile_sublist p)) h

/-- On letter-free text the letter scanner takes nothing. -/
theorem takeWhile_isAlpha_nil {l : List Char} (h : noAlpha l) : l.takeWhile isAlpha = [] := by
  cases l with
  | nil => rfl
  | cons c cs =>
    rw [List.takeWhile_cons]
    simp [h c (List.mem_cons_self c cs)]

/-- `noAlpha` survives `trimChars`. -/
theorem noAlpha_trimChars {l : List Char} (h : noAlpha l) : noAlpha (trimChars l) :=
  noAlpha_sub (fun _ hx => mem_trimChars hx) h

/-- `noAlpha` survives line normalisation. -/
theorem noAlpha_normalizeChars {l : List Char} (h : noAlpha l) :
    noAlpha (normalizeChars l) := by
  intro c hc
  rcases mem_normalizeChars hc with h1 | h1
  · subst h1
    decide
  · exact h c h1

/-- `noAlpha` of a concatenation. -/
theorem noAlpha_append {l m : List Char} (hl : noAlpha l) (hm : noAlpha m) :
    noAlpha (l ++ m) := by
  intro c hc
  rcases List.mem_append.1 hc with h | h
  · exact hl c h
  · exact hm c h

/-- The `D Month Y` pattern needs letters. -/
theorem matchFull3_none {l : List Char} (h : noAlpha l) : matchFull3 l = none := by
  unfold matchFull3
  have hls := takeWhile_isAlpha_nil (noAlpha_dropWhile isWs (noAlpha_dropWhile isDigit h))
  simp [hls]

/-- The `D Month` pattern needs letters. -/
theorem matchFull4_none {l : List Char} (h : noAlpha l) : matchFull4 l = none := by
  unfold matchFull4
  have hls := takeWhile_isAlpha_nil (noAlpha_dropWhile isWs (noAlpha_dropWhile isDigit h))
  simp [hls]

/-- The `Month D[, Y]` pattern needs letters. -/
theorem matchFull5_none {l : List Char} (h : noAlpha l) : matchFull5 l = none := by
  unfold matchFull5
  have hls := takeWhile_isAlpha_nil h
  simp [hls]

/-- `parseDate` consults the clock only for textual month-name forms, so
on letter-free input its result is the same in every year. -/
theorem parseDate_year_indep (y1 y2 : Nat) (pref : Option DateOrderPreference)
    (raw : String) (h : noAlpha raw.data) :
    parseDate y1 pref raw = parseDate y2 pref raw := by
  have hv : noAlpha (trimChars raw.data) := noAlpha_trimChars h
  simp only [parseDate]
  cases matchFull1 (trimChars raw.data) with
  | some a => rfl
  | none =>
    cases matchFull2 (trimChars raw.data) with
    | some a => rfl
    | none => rw [matchFull3_none hv, matchFull4_none hv, matchFull5_none hv]

/-- The year-first alternative emits only digits and separators. -/
theorem matchAltA_noAlpha {l r : List Char} (h : matchAltA l = some r) : noAlpha r := by
  simp only [matchAltA] at h
  split at h
  next a b c d s1 rest =>
    split_ifs at h with h1 h2
    split at h
    next s2 rest2 =>
      split_ifs at h with h3 h4
      have hr := (Option.some.inj h).symm
      subst hr
      simp only [Bool.and_eq_true] at h1
      intro x hx
      simp only [List.mem_cons] at hx
      rcases hx with rfl | rfl | rfl | rfl | rfl | hx
      · exact isAlpha_false_of_isDigit h1.1.1.1.1
      · exact isAlpha_false_of_isDigit h1.1.1.1.2
      · exact isAlpha_false_of_isDigit h1.1.1.2
      · exact isAlpha_false_of_isDigit h1.1.2
      · exact isAlpha_false_of_isSep h1.2
      · rcases List.mem_append.1 hx with hx | hx
        · exact isAlpha_false_of_isDigit (List.mem_takeWhile_imp hx)
        · rcases List.mem_cons.1 hx with rfl | hx
          · exact isAlpha_false_of_isSep h3
          · exact isAlpha_false_of_isDigit
              (List.mem_takeWhile_imp (List.take_subset 2 _ hx))
    next => exact Option.noConfusion h
  next => exact Option.noConfusion h

/-- The numeric day-month alternative emits only digits and separators. -/
theorem matchAltB_noAlpha {l r : List Char} (h : matchAltB l = some r) : noAlpha r := by
  simp only [matchAltB] at h
  split_ifs at h with h1
  split at h
  next s1 rest1 =>
    split_ifs at h with h2 h3
    split at h
    next s2 rest2 =>
      split_ifs at h with h4 h5
      have hr := (Option.some.inj h).symm
      subst hr
      intro x hx
      rcases List.mem_append.1 hx with hx | hx
      · rcases List.mem_append.1 hx with hx | hx
        · exact isAlpha_false_of_isDigit (List.mem_takeWhile_imp hx)
        · rcases List.mem_cons.1 hx with rfl | hx
          · exact isAlpha_false_of_isSep h2
          · exact isAlpha_false_of_isDigit (List.mem_takeWhile_imp hx)
      · rcases List.mem_cons.1 hx with rfl | hx
        · exact isAlpha_false_of_isSep h4
        · exact isAlpha_false_of_isDigit
            (List.mem_takeWhile_imp (List.take_subset 4 _ hx))
    next => exact Option.noConfusion h
  next => exact Option.noConfusion h

/-- The `D Month` alternative needs letters. -/
theorem matchAltC_none {l : List Char} (h : noAlpha l) : matchAltC l = none := by
  unfold matchAltC
  have hls := takeWhile_isAlpha_nil (noAlpha_dropWhile isWs (noAlpha_dropWhile isDigit h))
  simp [hls]

/-- The `Month D` alternative needs letters. -/
theorem matchAltD_none {l : List Char} (h : noAlpha l) : matchAltD l = none := by
  unfold matchAltD
  have hls := takeWhile_isAlpha_nil h
  simp [hls]

/-- On letter-free text a matched leading date token is letter-free. -/
theorem matchDateAtStart_noAlpha {l r : List Char} (h : noAlpha l)
    (hm : matchDateAtStart l = some r) : noAlpha r := by
  unfold matchDateAtStart at hm
  cases hA : matchAltA l with
  | some ra =>
    rw [hA] at hm
    have hm2 : some ra = some r := hm
    exact (Option.some.inj hm2) ▸ matchAltA_noAlpha hA
  | none =>
    rw [hA] at hm
    cases hB : matchAltB l with
    | some rb =>
      simp only [hB] at hm
      have hm2 : some rb = some r := hm
      exact (Option.some.inj hm2) ▸ matchAltB_noAlpha hB
    | none =>
      simp only [hB, matchAltC_none h, matchAltD_none h] at hm
      have hm2 : (none : Option (List Char)) = some r := hm
      exact Option.noConfusion hm2

/-- The extractor consults the clock only through `parseDate`, so on a
letter-free line its result is year-independent. -/
theorem parseTransactionLine_year_indep (y1 y2 : Nat) (pref : Option DateOrderPreference)
    {line : List Char} (h : noAlpha line) :
    parseTransactionLine y1 pref line = parseTransactionLine y2 pref line := by
  simp only [parseTransactionLine]
  have hclean : noAlpha (normalizeChars line) := noAlpha_normalizeChars h
  by_cases hmd : metadataTest (normalizeChars line) = true
  · rw [if_pos hmd, if_pos hmd]
  · rw [if_neg hmd, if_neg hmd]
    cases hd : matchDateAtStart (normalizeChars line) with
    | none => rfl
    | some dateRaw =>
      have hdr : noAlpha dateRaw := matchDateAtStart_noAlpha hclean hd
      dsimp only
      rw [parseDate_year_indep y1 y2 pref (String.mk dateRaw) hdr]

/-- One loop step on a letter-free line: year-independent, and any held
pending text stays letter-free. -/
theorem stepLine_year_indep (y1 y2 : Nat) (pref : Option DateOrderPreference)
    {st : ParseState} {line : List Char} (hline : noAlpha line) (hst : pendingOk st) :
    stepLine y1 pref st line = stepLine y2 pref st line ∧
      pendingOk (stepLine y1 pref st line) := by
  simp only [stepLine]
  cases hp : st.pendingCandidate with
  | none =>
    simp only [stepFresh]
    rw [parseTransactionLine_year_indep y1 y2 pref hline]
    refine ⟨rfl, ?_⟩
    cases parseTransactionLine y2 pref line with
    | some t =>
      intro q hq
      exact Option.noConfusion hq
    | none =>
      by_cases hc : isCandidateLine line = true
      · simp only [hc, if_true]
        intro q hq
        cases Option.some.inj hq
        exact hline
      · have hc' : isCandidateLine line = false := (Bool.not_eq_true _) ▸ hc
        simp only [hc', Bool.false_eq_true, if_false]
        split_ifs
        · intro q hq
          exact Option.noConfusion hq
        · intro q hq
          exact Option.noConfusion hq
  | some p =>
    have hpna : noAlpha p := hst p hp
    by_cases hc : isCandidateLine line = true
    · simp only [hc, if_true, stepFresh]
      rw [parseTransactionLine_year_indep y1 y2 pref hline]
      refine ⟨rfl, ?_⟩
      cases parseTransactionLine y2 pref line with
      | some t =>
        intro q hq
        exact Option.noConfusion hq
      | none =>
        simp only [hc, if_true]
        intro q hq
        cases Option.some.inj hq
        exact hline
    · have hc' : isCandidateLine line = false := (Bool.not_eq_true _) ▸ hc
      simp only [hc', Bool.false_eq_true, if_false]
      have hcomb : noAlpha (trimChars (p ++ ' ' :: line)) := by
        apply noAlpha_trimChars
        apply noAlpha_append hpna
        intro c hc2
        rcases List.mem_cons.1 hc2 with rfl | h2
        · decide
        · exact hline c h2
      rw [parseTransactionLine_year_indep y1 y2 pref hcomb]
      refine ⟨rfl, ?_⟩
      cases parseTransactionLine y2 pref (trimChars (p ++ ' ' :: line)) with
      | some t =>
        intro q hq
        exact Option.noConfusion hq
      | none =>
        split_ifs
        · intro q hq
          cases Option.some.inj hq
          exact hcomb
        · intro q hq
          exact Option.noConfusion hq

/-- The whole line loop is year-independent on letter-free lines. -/
theorem foldl_year_indep (y1 y2 : Nat) (pref : Option DateOrderPreference) :
    ∀ (lines : List (List Char)) (st : ParseState),
      (∀ l ∈ lines, noAlpha l) → pendingOk st →
      lines.foldl (stepLine y1 pref) st = lines.foldl (stepLine y2 pref) st := by
  intro lines
  induction lines with
  | nil => intro st _ _; rfl
  | cons l ls ih =>
    intro st hall hst
    simp only [List.foldl_cons]
    have hstep := stepLine_year_indep y1 y2 pref (hall l (List.mem_cons_self l ls)) hst
    rw [← hstep.1]
    exact ih _ (fun x hx => hall x (List.mem_cons_of_mem l hx)) hstep.2

/-- Splitting letter-free text yields letter-free lines. -/
theorem splitLines_noAlpha : ∀ {t : List Char}, noAlpha t →
    ∀ l ∈ splitLines t, noAlpha l := by
  intro t
  induction t using splitLines.induct with
  | case1 =>
    intro _ l hl
    simp only [splitLines, List.mem_singleton] at hl
    subst hl
    intro c hc
    exact absurd hc (List.not_mem_nil c)
  | case2 rest ih =>
    intro h l hl
    have hrest : noAlpha rest := fun c hc =>
      h c (List.mem_cons_of_mem _ (List.mem_cons_of_mem _ hc))
    simp only [splitLines, List.mem_cons] at hl
    rcases hl with rfl | hl
    · intro c hc
      exact absurd hc (List.not_mem_nil c)
    · exact ih hrest l hl
  | case3 rest ih =>
    intro h l hl
    have hrest : noAlpha rest := fun c hc => h c (List.mem_cons_of_mem _ hc)
    simp only [splitLines, List.mem_cons] at hl
    rcases hl with rfl | hl
    · intro c hc
      exact absurd hc (List.not_mem_nil c)
    · exact ih hrest l hl
  | case4 c rest hne1 hne2 hsp ih =>
    intro h l hl
    have hc0 : isAlpha c = false := h c (List.mem_cons_self c rest)
    rw [splitLines.eq_4 c rest hne1 hne2, hsp] at hl
    simp only [List.mem_singleton] at hl
    subst hl
    intro x hx
    rcases List.mem_singleton.1 hx with rfl
    exact hc0
  | case5 c rest hne1 hne2 line more hsp ih =>
    intro h l hl
    have hrest : noAlpha rest := fun x hx => h x (List.mem_cons_of_mem _ hx)
    have hc0 : isAlpha c = false := h c (List.mem_cons_self c rest)
    rw [splitLines.eq_4 c rest hne1 hne2, hsp] at hl
    rcases List.mem_cons.1 hl with rfl | hl
    · intro x hx
      rcases List.mem_cons.1 hx with rfl | hx
      · exact hc0
      · exact ih hrest line (hsp ▸ List.mem_cons_self line more) x hx
    · exact ih hrest l (hsp ▸ List.mem_cons_of_mem line hl)

/-- C9 (amended): the parser's output is a function of the input text and
the current UTC year only — and the year matters only through textual,
month-name dates: on input with no alphabetic characters the result is
identical in every year. -/
theorem claim_C9_amended_year_independence (y1 y2 : Nat) (text : String)
    (h : ∀ c ∈ text.data, isAlpha c = false) :
    parseStatementText y1 text = parseStatementText y2 text := by
  have hlines : ∀ l ∈ statementLines text, noAlpha l := by
    intro l hl
    unfold statementLines at hl
    rcases List.mem_filter.1 hl with ⟨hmem, _⟩
    rcases List.mem_map.1 hmem with ⟨raw, hraw, rfl⟩
    exact noAlpha_normalizeChars (splitLines_noAlpha h raw hraw)
  simp only [parseStatementText]
  rw [foldl_year_indep y1 y2 (detectDatePreference (statementLines text))
    (statementLines text) ⟨[], 0, none⟩ hlines (fun q hq => Option.noConfusion hq)]

/-- Witness: a letter-free two-line statement parses identically in 2026
and in 1999. -/
theorem claim_C9_amended_year_independence_witness :
    parseStatementText 2026 "15/03/2026 *** 4.50\n-$2.00$1.00" =
      parseStatementText 1999 "15/03/2026 *** 4.50\n-$2.00$1.00" :=
  claim_C9_amended_year_independence 2026 1999 "15/03/2026 *** 4.50\n-$2.00$1.00"
    (by decide)

end Statement2Csv
